import Mathlib

/-!
Verification of the gufe ChemicalSystem slice.

The repository slice ships only the test module
`src/gufe/tests/test_chemicalsystem.py` and the package `__init__`;
the implementation of `ChemicalSystem` and the concrete `Component`
classes is not part of the slice.  The definitions below are therefore
modelled from the specification (spec.md sections 3, 4.1 and 9), which
describes the constructor, the `components` accessor, the equality
operator, the hash function and the `total_charge` property, and they
are exercised against the concrete scenarios of the test module.
-/

/-- Modelled from the spec: a `Component` is an opaque molecular entity
(protein, ligand, solvent) supporting value equality, consistent
hashing, and reporting a net formal charge.  Its internals are out of
scope, so the content is modelled as an opaque string identity plus the
integer-like charge. -/
structure Component where
  content : String
  charge : Int
deriving DecidableEq

/-- Modelled from the spec: one entry of a `box_vectors` array — a
numeric value that may be a not-a-number placeholder.  Under standard
IEEE-754 comparison a not-a-number value does not equal itself; the
design of ChemicalSystem deliberately diverges from that (spec section
9, design note on not-a-number-tolerant equality). -/
inductive FpVal where
  | nan : FpVal
  | num : ℚ → FpVal
deriving DecidableEq

/-- Standard IEEE-754-style comparison of two box-vector entries: a
not-a-number value compares unequal to everything, itself included. -/
def FpVal.ieeeEq : FpVal → FpVal → Bool
  | .num a, .num b => a == b
  | _, _ => false

/-- Modelled from the spec: the element-wise comparison used by
ChemicalSystem, which treats two not-a-number values in the same
position as equal (distinct from IEEE-754 default). -/
def FpVal.tolEq : FpVal → FpVal → Bool
  | .nan, .nan => true
  | .num a, .num b => a == b
  | _, _ => false

/-- Modelled from the spec: element-wise comparison of two box-vector
arrays, not-a-number tolerant; arrays of different lengths are unequal. -/
def listTolEq : List FpVal → List FpVal → Bool
  | [], [] => true
  | x :: xs, y :: ys => x.tolEq y && listTolEq xs ys
  | _, _ => false

/-- Modelled from the spec: comparison of the optional `box_vectors`
field — both absent, or both present and element-wise equal; a system
with box vectors is never equal to one without. -/
def boxEq : Option (List FpVal) → Option (List FpVal) → Bool
  | none, none => true
  | some b₁, some b₂ => listTolEq b₁ b₂
  | _, _ => false

/-- Lookup of a role name in the role to Component mapping, modelling
Python dict lookup (keys are unique in a dict). -/
def dlookup (k : String) : List (String × Component) → Option Component
  | [] => none
  | kv :: rest => if kv.1 = k then some kv.2 else dlookup k rest

/-- Modelled from the spec: set-equality of two role to Component
mappings as (key, value) pairs, independent of insertion order. -/
def dictEq (d₁ d₂ : List (String × Component)) : Bool :=
  (d₁.all fun kv => dlookup kv.1 d₂ == some kv.2) &&
  (d₂.all fun kv => dlookup kv.1 d₁ == some kv.2)

/-- Modelled from the spec: an immutable composite of named Components.
`components` is the role to Component mapping as given at construction
(the list order records insertion order, which must not affect equality
or hash); `identifier` is an optional opaque string tag; `box_vectors`
is an optional numeric array. -/
structure ChemicalSystem where
  components : List (String × Component)
  identifier : Option String := none
  box_vectors : Option (List FpVal) := none

/-- Modelled from the spec: the equality operator of ChemicalSystem —
true iff the component mappings are set-equal as (key, value) pairs,
the identifiers are equal (or both absent), and the box vectors are
equal element-wise (or both absent). -/
def sysEq (a b : ChemicalSystem) : Bool :=
  dictEq a.components b.components &&
  a.identifier == b.identifier &&
  boxEq a.box_vectors b.box_vectors

/-- Modelled from the spec: `total_charge` sums the charge contribution
of every Component in the mapping by simple accumulation. -/
def totalCharge (s : ChemicalSystem) : Int :=
  s.components.foldl (fun acc kv => acc + kv.2.charge) 0

/-- Injective encoding of a list of naturals, used as a hash
combinator that is stable across runs. -/
def listEnc : List ℕ → ℕ
  | [] => 0
  | x :: xs => Nat.pair x (listEnc xs) + 1

/-- Stable content hash of a string. -/
def strEnc (s : String) : ℕ :=
  listEnc (s.data.map Char.toNat)

/-- Stable content hash of an integer. -/
def intEnc : Int → ℕ
  | .ofNat n => 2 * n
  | .negSucc n => 2 * n + 1

/-- Stable content hash of a rational numeric value. -/
def ratEnc (q : ℚ) : ℕ :=
  Nat.pair (intEnc q.num) q.den

/-- Stable content hash of a box-vector entry; consistent with the
not-a-number-tolerant equality: equal entries (including two
not-a-number placeholders) hash equal. -/
def fpEnc : FpVal → ℕ
  | .nan => 0
  | .num q => ratEnc q + 1

/-- Modelled from the spec: content hash of a Component — a pure
function of its value, so equal Components hash equal. -/
def compHash (c : Component) : ℕ :=
  Nat.pair (strEnc c.content) (intEnc c.charge)

/-- Per-entry hash of one (role, Component) pair of the mapping. -/
def entryHash (kv : String × Component) : ℕ :=
  Nat.pair (strEnc kv.1) (compHash kv.2)

/-- Insert a natural into a sorted list, keeping it sorted. -/
def insort (x : ℕ) : List ℕ → List ℕ
  | [] => [x]
  | y :: ys => if x ≤ y then x :: y :: ys else y :: insort x ys

/-- Insertion sort, used to combine the per-entry hashes of the
component mapping into a value independent of insertion order. -/
def isort : List ℕ → List ℕ
  | [] => []
  | x :: xs => insort x (isort xs)

/-- Modelled from the spec: hash of the component mapping's content,
independent of insertion order — the per-entry hashes are combined
through an order-insensitive reduction (here: sorting before the final
combination), so that hash(M1) = hash(M2) regardless of construction
order, and unequal mappings receive different hashes. -/
def dictHash (d : List (String × Component)) : ℕ :=
  listEnc (isort (d.map entryHash))

/-- Hash of the optional identifier tag. -/
def identHash : Option String → ℕ
  | none => 0
  | some s => strEnc s + 1

/-- Hash of the optional box-vector array, consistent with the
not-a-number-tolerant equality rule. -/
def boxHash : Option (List FpVal) → ℕ
  | none => 0
  | some l => listEnc (l.map fpEnc) + 1

/-- Modelled from the spec: the hash of a ChemicalSystem combines the
order-insensitive hash of the component mapping, the hash of the
identifier and the hash of the box-vector representation; it is stable
for equal inputs and differs for unequal inputs. -/
def sysHash (s : ChemicalSystem) : ℕ :=
  Nat.pair (dictHash s.components)
    (Nat.pair (identHash s.identifier) (boxHash s.box_vectors))

/-- The universe of values a ChemicalSystem may be compared against in
the test module: other systems and bare Components (foreign type). -/
inductive PyObj where
  | system : ChemicalSystem → PyObj
  | component : Component → PyObj

/-- Modelled from the spec: equality with the type check first — a
comparison of a ChemicalSystem against an unrelated type (including a
bare Component) returns false rather than raising; the function is
total. -/
def pyEq : PyObj → PyObj → Bool
  | .system a, .system b => sysEq a b
  | .component a, .component b => a == b
  | _, _ => false

/-- Hash over the compared universe; hashes of systems and of foreign
objects are kept apart (the spec only asks that they differ with high
probability, which the disjoint ranges realise with certainty). -/
def pyHash : PyObj → ℕ
  | .system s => 2 * sysHash s
  | .component c => 2 * compHash c + 1

/-- Concrete protein component of the test fixtures: contributes the
net charge +22 asserted by the charge tests. -/
def protComp : Component := ⟨"181L", 22⟩

/-- Concrete neutral solvent component of the test fixtures. -/
def solvComp : Component := ⟨"K Cl", 0⟩

/-- Concrete neutral toluene ligand component of the test fixtures. -/
def tolueneComp : Component := ⟨"toluene", 0⟩

/-- Concrete neutral phenol ligand component of the test fixtures. -/
def phenolComp : Component := ⟨"phenol", 0⟩

/-- The solvated protein-ligand complex fixture of the test module. -/
def solvatedComplex : ChemicalSystem :=
  ⟨[("protein", protComp), ("solvent", solvComp), ("ligand", tolueneComp)],
    none, none⟩

/-- The solvated ligand fixture of the test module. -/
def solvatedLigand : ChemicalSystem :=
  ⟨[("ligand", tolueneComp), ("solvent", solvComp)], none, none⟩

/-- The box-vector array of test_chemical_system_neq_3: three numbers
followed by six not-a-number placeholders. -/
def nanBox : List FpVal :=
  [.num 10, .num 0, .num 0, .nan, .nan, .nan, .nan, .nan, .nan]

/-- The complex of test_chemical_system_neq_3: the solvated complex
components with the not-a-number-carrying box vectors. -/
def nanComplex : ChemicalSystem :=
  ⟨solvatedComplex.components, none, some nanBox⟩

/-- The list encoder is injective. -/
theorem listEnc_inj : ∀ {l₁ l₂ : List ℕ}, listEnc l₁ = listEnc l₂ → l₁ = l₂ := by
  intro l₁
  induction l₁ with
  | nil =>
    intro l₂ h
    cases l₂ with
    | nil => rfl
    | cons y ys => simp [listEnc] at h
  | cons x xs ih =>
    intro l₂ h
    cases l₂ with
    | nil => simp [listEnc] at h
    | cons y ys =>
      simp only [listEnc, Nat.add_right_cancel_iff] at h
      obtain ⟨hx, hrest⟩ := Nat.pair_eq_pair.mp h
      rw [hx, ih hrest]

/-- Character codes determine characters. -/
theorem char_toNat_inj : Function.Injective Char.toNat := by
  intro c d h
  exact Char.ext (UInt32.ext h)

/-- The string hash is injective. -/
theorem strEnc_inj : Function.Injective strEnc := by
  intro s t h
  have h₁ : s.data.map Char.toNat = t.data.map Char.toNat := listEnc_inj h
  have h₂ : s.data = t.data := List.map_injective_iff.mpr char_toNat_inj h₁
  cases s; cases t; cases h₂; rfl

/-- The integer hash is injective. -/
theorem intEnc_inj : Function.Injective intEnc := by
  intro a b h
  cases a with
  | ofNat m =>
    cases b with
    | ofNat n =>
      simp only [intEnc] at h
      exact congrArg Int.ofNat (by omega)
    | negSucc n =>
      simp only [intEnc] at h
      exact absurd h (by omega)
  | negSucc m =>
    cases b with
    | ofNat n =>
      simp only [intEnc] at h
      exact absurd h (by omega)
    | negSucc n =>
      simp only [intEnc] at h
      exact congrArg Int.negSucc (by omega)

/-- The rational hash is injective. -/
theorem ratEnc_inj : Function.Injective ratEnc := by
  intro q r h
  obtain ⟨h₁, h₂⟩ := Nat.pair_eq_pair.mp h
  exact Rat.ext (intEnc_inj h₁) h₂

/-- The box-entry hash is injective. -/
theorem fpEnc_inj : Function.Injective fpEnc := by
  intro a b h
  cases a <;> cases b <;> simp [fpEnc, ratEnc_inj.eq_iff] at h <;> simp [h]

/-- The Component hash is injective: it is a pure function of the
Component's value and distinct values hash apart. -/
theorem compHash_inj : Function.Injective compHash := by
  intro c d h
  obtain ⟨h₁, h₂⟩ := Nat.pair_eq_pair.mp h
  cases c; cases d
  simp only [Component.mk.injEq]
  exact ⟨strEnc_inj h₁, intEnc_inj h₂⟩

/-- The per-entry hash of the mapping is injective. -/
theorem entryHash_inj : Function.Injective entryHash := by
  intro kv₁ kv₂ h
  obtain ⟨h₁, h₂⟩ := Nat.pair_eq_pair.mp h
  cases kv₁; cases kv₂
  simp only [Prod.mk.injEq]
  exact ⟨strEnc_inj h₁, compHash_inj h₂⟩

/-- Inserting into a list is a permutation of consing. -/
theorem insort_perm (x : ℕ) : ∀ l : List ℕ, (insort x l).Perm (x :: l)
  | [] => List.Perm.refl _
  | y :: ys => by
    simp only [insort]
    split
    · exact List.Perm.refl _
    · exact ((insort_perm x ys).cons y).trans (List.Perm.swap x y ys)

/-- Membership in an insertion. -/
theorem mem_insort {b x : ℕ} {l : List ℕ} : b ∈ insort x l ↔ b = x ∨ b ∈ l := by
  rw [(insort_perm x l).mem_iff]
  simp

/-- Insertion preserves sortedness. -/
theorem insort_sorted (x : ℕ) : ∀ {l : List ℕ},
    l.Sorted (· ≤ ·) → (insort x l).Sorted (· ≤ ·) := by
  intro l
  induction l with
  | nil => intro _; simp [insort]
  | cons y ys ih =>
    intro h
    rw [List.sorted_cons] at h
    simp only [insort]
    split
    · rename_i hxy
      refine List.sorted_cons.mpr ⟨?_, List.sorted_cons.mpr h⟩
      intro b hb
      rcases List.mem_cons.mp hb with rfl | hb
      · exact hxy
      · exact le_trans hxy (h.1 b hb)
    · rename_i hxy
      refine List.sorted_cons.mpr ⟨?_, ih h.2⟩
      intro b hb
      rcases mem_insort.mp hb with rfl | hb
      · omega
      · exact h.1 b hb

/-- Sorting permutes the input. -/
theorem isort_perm : ∀ l : List ℕ, (isort l).Perm l
  | [] => List.Perm.refl _
  | x :: xs => (insort_perm x (isort xs)).trans ((isort_perm xs).cons x)

/-- Sorting sorts. -/
theorem isort_sorted : ∀ l : List ℕ, (isort l).Sorted (· ≤ ·)
  | [] => List.sorted_nil
  | x :: xs => insort_sorted x (isort_sorted xs)

/-- Permutations sort identically. -/
theorem isort_eq_of_perm {l₁ l₂ : List ℕ} (h : l₁.Perm l₂) : isort l₁ = isort l₂ :=
  List.eq_of_perm_of_sorted ((isort_perm l₁).trans (h.trans (isort_perm l₂).symm))
    (isort_sorted l₁) (isort_sorted l₂)

/-- Identically sorted lists are permutations. -/
theorem perm_of_isort_eq {l₁ l₂ : List ℕ} (h : isort l₁ = isort l₂) : l₁.Perm l₂ := by
  have h₁ := (isort_perm l₁).symm
  rw [h] at h₁
  exact h₁.trans (isort_perm l₂)

/-- The mapping hash is insertion-order independent. -/
theorem dictHash_eq_of_perm {d₁ d₂ : List (String × Component)}
    (h : d₁.Perm d₂) : dictHash d₁ = dictHash d₂ :=
  congrArg listEnc (isort_eq_of_perm (h.map entryHash))

/-- Equal mapping hashes force the two mappings to hold the same
(role, Component) pairs with the same multiplicities. -/
theorem perm_of_dictHash_eq {d₁ d₂ : List (String × Component)}
    (h : dictHash d₁ = dictHash d₂) : d₁.Perm d₂ := by
  have hp : (d₁.map entryHash).Perm (d₂.map entryHash) :=
    perm_of_isort_eq (listEnc_inj h)
  have h₂ : Multiset.map entryHash (d₁ : Multiset (String × Component)) =
      Multiset.map entryHash (d₂ : Multiset (String × Component)) := by
    simpa using Multiset.coe_eq_coe.mpr hp
  exact Multiset.coe_eq_coe.mp (Multiset.map_injective entryHash_inj h₂)

/-- A successful lookup pair is an entry of the mapping. -/
theorem mem_of_dlookup {k : String} {v : Component} :
    ∀ {d : List (String × Component)}, dlookup k d = some v → (k, v) ∈ d := by
  intro d
  induction d with
  | nil => intro h; simp [dlookup] at h
  | cons kv rest ih =>
    intro h
    simp only [dlookup] at h
    split at h
    · rename_i hk
      rcases kv with ⟨k₀, v₀⟩
      cases hk
      cases h
      simp
    · exact List.mem_cons_of_mem _ (ih h)

/-- With unique role names, every entry of the mapping is found by
lookup on its role name. -/
theorem dlookup_of_mem {kv : String × Component} :
    ∀ {d : List (String × Component)}, (d.map Prod.fst).Nodup → kv ∈ d →
      dlookup kv.1 d = some kv.2 := by
  intro d
  induction d with
  | nil => intro _ h; simp at h
  | cons kw rest ih =>
    intro nd h
    simp only [List.map_cons, List.nodup_cons] at nd
    simp only [dlookup]
    rcases List.mem_cons.mp h with rfl | hmem
    · simp
    · split
      · rename_i hk
        exact absurd (hk ▸ List.mem_map_of_mem Prod.fst hmem) nd.1
      · exact ih nd.2 hmem

/-- With unique role names, the modelled dict equality holds exactly
when the two mappings list the same (role, Component) pairs, i.e. are
permutations of one another. -/
theorem dictEq_true_iff {d₁ d₂ : List (String × Component)}
    (nd₁ : (d₁.map Prod.fst).Nodup) (nd₂ : (d₂.map Prod.fst).Nodup) :
    dictEq d₁ d₂ = true ↔ d₁.Perm d₂ := by
  simp only [dictEq, Bool.and_eq_true, List.all_eq_true, beq_iff_eq]
  constructor
  · rintro ⟨h₁, h₂⟩
    refine (List.perm_ext_iff_of_nodup nd₁.of_map nd₂.of_map).mpr ?_
    intro kv
    constructor
    · intro hm
      exact mem_of_dlookup (h₁ kv hm)
    · intro hm
      exact mem_of_dlookup (h₂ kv hm)
  · intro hp
    constructor
    · intro kv hm
      exact dlookup_of_mem nd₂ (hp.mem_iff.mp hm)
    · intro kv hm
      exact dlookup_of_mem nd₁ (hp.mem_iff.mpr hm)

/-- The tolerant entry comparison is exactly structural equality of the
modelled values: two not-a-number placeholders in the same slot count
as equal. -/
theorem tolEq_true_iff {x y : FpVal} : x.tolEq y = true ↔ x = y := by
  cases x <;> cases y <;> simp [FpVal.tolEq]

/-- The element-wise tolerant comparison of box-vector arrays is exactly
structural equality of the modelled arrays. -/
theorem listTolEq_true_iff : ∀ {l₁ l₂ : List FpVal}, listTolEq l₁ l₂ = true ↔ l₁ = l₂ := by
  intro l₁
  induction l₁ with
  | nil =>
    intro l₂
    cases l₂ <;> simp [listTolEq]
  | cons x xs ih =>
    intro l₂
    cases l₂ with
    | nil => simp [listTolEq]
    | cons y ys => simp [listTolEq, tolEq_true_iff, ih]

/-- Comparison of the optional box-vector field is exactly structural
equality. -/
theorem boxEq_true_iff {b₁ b₂ : Option (List FpVal)} : boxEq b₁ b₂ = true ↔ b₁ = b₂ := by
  cases b₁ <;> cases b₂ <;> simp [boxEq, listTolEq_true_iff]

/-- The identifier hash is injective. -/
theorem identHash_inj : Function.Injective identHash := by
  intro a b h
  cases a with
  | none =>
    cases b with
    | none => rfl
    | some t => exact absurd h (by simp only [identHash]; omega)
  | some s =>
    cases b with
    | none => exact absurd h (by simp only [identHash]; omega)
    | some t =>
      simp only [identHash, Nat.add_right_cancel_iff] at h
      exact congrArg some (strEnc_inj h)

/-- The box-vector hash is injective. -/
theorem boxHash_inj : Function.Injective boxHash := by
  intro a b h
  cases a with
  | none =>
    cases b with
    | none => rfl
    | some t => exact absurd h (by simp only [boxHash]; omega)
  | some s =>
    cases b with
    | none => exact absurd h (by simp only [boxHash]; omega)
    | some t =>
      simp only [boxHash, Nat.add_right_cancel_iff] at h
      exact congrArg some (List.map_injective_iff.mpr fpEnc_inj (listEnc_inj h))

/-- Accumulating charges from any starting value adds the mapped sum. -/
theorem foldl_charge (m : List (String × Component)) :
    ∀ acc : Int, m.foldl (fun a kv => a + kv.2.charge) acc =
      acc + (m.map fun kv => kv.2.charge).sum := by
  induction m with
  | nil => intro acc; simp
  | cons kv rest ih =>
    intro acc
    simp [List.foldl_cons, ih, add_assoc]

/-- C1: two ChemicalSystem instances constructed from mappings holding
identical (role, Component) pairs regardless of insertion order, with
identical identifier and box vectors, are equal and hash equal. -/
theorem c1_order_independent_eq_and_hash
    (m₁ m₂ : List (String × Component)) (i : Option String) (b : Option (List FpVal))
    (nd₁ : (m₁.map Prod.fst).Nodup) (nd₂ : (m₂.map Prod.fst).Nodup)
    (hset : ∀ kv : String × Component, kv ∈ m₁ ↔ kv ∈ m₂) :
    sysEq ⟨m₁, i, b⟩ ⟨m₂, i, b⟩ = true ∧ sysHash ⟨m₁, i, b⟩ = sysHash ⟨m₂, i, b⟩ := by
  have hperm : m₁.Perm m₂ := (List.perm_ext_iff_of_nodup nd₁.of_map nd₂.of_map).mpr hset
  constructor
  · simp only [sysEq, Bool.and_eq_true]
    exact ⟨⟨(dictEq_true_iff nd₁ nd₂).mpr hperm, beq_self_eq_true _⟩,
      boxEq_true_iff.mpr rfl⟩
  · simp only [sysHash]
    rw [dictHash_eq_of_perm hperm]

/-- Witness for C1 at the scenario of test_hash_and_eq: the solvated
complex built protein-first equals, and hashes equal to, the same
mapping built solvent-first. -/
theorem c1_order_independent_eq_and_hash_witness :
    sysEq ⟨[("protein", protComp), ("solvent", solvComp), ("ligand", tolueneComp)], none, none⟩
        ⟨[("solvent", solvComp), ("ligand", tolueneComp), ("protein", protComp)], none, none⟩ = true ∧
    sysHash ⟨[("protein", protComp), ("solvent", solvComp), ("ligand", tolueneComp)], none, none⟩ =
      sysHash ⟨[("solvent", solvComp), ("ligand", tolueneComp), ("protein", protComp)], none, none⟩ :=
  c1_order_independent_eq_and_hash _ _ none none (by decide) (by decide)
    (by intro kv; simp only [List.mem_cons, List.not_mem_nil, or_false]; tauto)

/-- C2: total_charge is the arithmetic sum of the individual charges of
the Components of the mapping; a protein of charge +22 with a neutral
ligand and neutral solvent totals 22, and a neutral ligand with a
neutral solvent totals 0. -/
theorem c2_total_charge_sums_components
    (m : List (String × Component)) (i : Option String) (b : Option (List FpVal))
    (p lg sv : Component) (i₁ i₂ : Option String) (b₁ b₂ : Option (List FpVal))
    (hp : p.charge = 22) (hl : lg.charge = 0) (hs : sv.charge = 0) :
    totalCharge ⟨m, i, b⟩ = (m.map fun kv => kv.2.charge).sum ∧
    totalCharge ⟨[("protein", p), ("solvent", sv), ("ligand", lg)], i₁, b₁⟩ = 22 ∧
    totalCharge ⟨[("ligand", lg), ("solvent", sv)], i₂, b₂⟩ = 0 := by
  refine ⟨?_, ?_, ?_⟩
  · simp [totalCharge, foldl_charge]
  · simp only [totalCharge, List.foldl_cons, List.foldl_nil, hp, hl, hs]
    norm_num
  · simp only [totalCharge, List.foldl_cons, List.foldl_nil, hl, hs]
    norm_num

/-- Witness for C2 at the fixtures of the charge tests: the solvated
complex totals 22 and the solvated ligand totals 0. -/
theorem c2_total_charge_sums_components_witness :
    totalCharge ⟨solvatedComplex.components, none, none⟩ =
      (solvatedComplex.components.map fun kv => kv.2.charge).sum ∧
    totalCharge ⟨[("protein", protComp), ("solvent", solvComp), ("ligand", tolueneComp)], none, none⟩ = 22 ∧
    totalCharge ⟨[("ligand", tolueneComp), ("solvent", solvComp)], none, none⟩ = 0 :=
  c2_total_charge_sums_components _ none none protComp tolueneComp solvComp
    none none none none rfl rfl rfl

/-- C3: two ChemicalSystem instances whose component mappings are not
set-equal as (role, Component) pairs — differing role-name sets, or a
differing Component at some role — are unequal and hash differently. -/
theorem c3_differing_mappings_unequal
    (m₁ m₂ : List (String × Component)) (i₁ i₂ : Option String)
    (b₁ b₂ : Option (List FpVal))
    (nd₁ : (m₁.map Prod.fst).Nodup) (nd₂ : (m₂.map Prod.fst).Nodup)
    (hdiff : ∃ kv : String × Component, ¬(kv ∈ m₁ ↔ kv ∈ m₂)) :
    sysEq ⟨m₁, i₁, b₁⟩ ⟨m₂, i₂, b₂⟩ = false ∧
    sysHash ⟨m₁, i₁, b₁⟩ ≠ sysHash ⟨m₂, i₂, b₂⟩ := by
  obtain ⟨kv, hkv⟩ := hdiff
  have hnp : ¬ m₁.Perm m₂ := fun hp => hkv hp.mem_iff
  have hde : dictEq m₁ m₂ = false := by
    cases hd : dictEq m₁ m₂
    · rfl
    · exact absurd ((dictEq_true_iff nd₁ nd₂).mp hd) hnp
  constructor
  · simp [sysEq, hde]
  · intro h
    simp only [sysHash] at h
    exact hnp (perm_of_dictHash_eq (Nat.pair_eq_pair.mp h).1)

/-- Witness for C3 at the scenario of test_chemical_system_neq_4: the
solvated complex and the solvated ligand have different role-name sets,
so they are unequal and hash differently. -/
theorem c3_differing_mappings_unequal_witness :
    sysEq ⟨[("protein", protComp), ("solvent", solvComp), ("ligand", tolueneComp)], none, none⟩
        ⟨[("ligand", tolueneComp), ("solvent", solvComp)], none, none⟩ = false ∧
    sysHash ⟨[("protein", protComp), ("solvent", solvComp), ("ligand", tolueneComp)], none, none⟩ ≠
      sysHash ⟨[("ligand", tolueneComp), ("solvent", solvComp)], none, none⟩ :=
  c3_differing_mappings_unequal _ _ none none none none (by decide) (by decide)
    ⟨("protein", protComp), by decide⟩

/-- C4: two ChemicalSystem instances identical except for the
identifier (including absent versus present) are unequal and hash
differently. -/
theorem c4_differing_identifier_unequal
    (m : List (String × Component)) (b : Option (List FpVal))
    (i₁ i₂ : Option String) (h : i₁ ≠ i₂) :
    sysEq ⟨m, i₁, b⟩ ⟨m, i₂, b⟩ = false ∧
    sysHash ⟨m, i₁, b⟩ ≠ sysHash ⟨m, i₂, b⟩ := by
  have hbeq : (i₁ == i₂) = false := beq_eq_false_iff_ne.mpr h
  constructor
  · simp [sysEq, hbeq]
  · intro hh
    simp only [sysHash] at hh
    exact h (identHash_inj (Nat.pair_eq_pair.mp (Nat.pair_eq_pair.mp hh).2).1)

/-- Witness for C4 at the scenario of test_chemical_system_neq_2: the
solvated complex without identifier against the same construction with
an identifier. -/
theorem c4_differing_identifier_unequal_witness :
    sysEq ⟨solvatedComplex.components, none, none⟩
        ⟨solvatedComplex.components, some "Not quite the same", none⟩ = false ∧
    sysHash ⟨solvatedComplex.components, none, none⟩ ≠
      sysHash ⟨solvatedComplex.components, some "Not quite the same", none⟩ :=
  c4_differing_identifier_unequal _ none none (some "Not quite the same") (by decide)

/-- C5: two ChemicalSystem instances identical except for the box
vectors — including one carrying a not-a-number-containing array and
the other omitting the field — are unequal and hash differently. -/
theorem c5_differing_box_vectors_unequal
    (m : List (String × Component)) (i : Option String)
    (b₁ b₂ : Option (List FpVal)) (h : b₁ ≠ b₂) :
    sysEq ⟨m, i, b₁⟩ ⟨m, i, b₂⟩ = false ∧
    sysHash ⟨m, i, b₁⟩ ≠ sysHash ⟨m, i, b₂⟩ := by
  have hbe : boxEq b₁ b₂ = false := by
    cases hb : boxEq b₁ b₂
    · rfl
    · exact absurd (boxEq_true_iff.mp hb) h
  constructor
  · simp [sysEq, hbe]
  · intro hh
    simp only [sysHash] at hh
    exact h (boxHash_inj (Nat.pair_eq_pair.mp (Nat.pair_eq_pair.mp hh).2).2)

/-- Witness for C5 at the scenario of test_chemical_system_neq_3: the
solvated complex without box vectors against the same construction with
the not-a-number-carrying box vectors. -/
theorem c5_differing_box_vectors_unequal_witness :
    sysEq ⟨solvatedComplex.components, none, none⟩
        ⟨solvatedComplex.components, none, some nanBox⟩ = false ∧
    sysHash ⟨solvatedComplex.components, none, none⟩ ≠
      sysHash ⟨solvatedComplex.components, none, some nanBox⟩ :=
  c5_differing_box_vectors_unequal _ none none (some nanBox) (by decide)

/-- C6: comparing a ChemicalSystem with a non-ChemicalSystem object
(a bare Component) returns false in both directions — the comparison is
a total function, so it never raises — and their hashes differ. -/
theorem c6_foreign_type_eq_false
    (s : ChemicalSystem) (c : Component) :
    pyEq (.system s) (.component c) = false ∧
    pyEq (.component c) (.system s) = false ∧
    pyHash (.system s) ≠ pyHash (.component c) := by
  refine ⟨rfl, rfl, ?_⟩
  simp only [pyHash]
  omega

/-- C7: box-vector arrays that are positionally identical element-wise
— including both holding not-a-number placeholders in the same slots —
compare equal and contribute equal hashes, so two systems identical up
to such arrays are equal and hash equal, even though the standard
IEEE-754-style comparison rejects not-a-number equal to itself. -/
theorem c7_nan_box_vectors_equal
    (m : List (String × Component)) (nd : (m.map Prod.fst).Nodup)
    (i : Option String) (b₁ b₂ : List FpVal)
    (hlen : b₁.length = b₂.length)
    (hpt : ∀ (j : ℕ) (h₁ : j < b₁.length) (h₂ : j < b₂.length),
      (b₁.get ⟨j, h₁⟩).tolEq (b₂.get ⟨j, h₂⟩) = true) :
    sysEq ⟨m, i, some b₁⟩ ⟨m, i, some b₂⟩ = true ∧
    sysHash ⟨m, i, some b₁⟩ = sysHash ⟨m, i, some b₂⟩ ∧
    FpVal.ieeeEq .nan .nan = false ∧ FpVal.tolEq .nan .nan = true := by
  have hb : b₁ = b₂ :=
    List.ext_get hlen fun j h₁ h₂ => tolEq_true_iff.mp (hpt j h₁ h₂)
  cases hb
  refine ⟨?_, rfl, rfl, rfl⟩
  simp only [sysEq, Bool.and_eq_true]
  exact ⟨⟨(dictEq_true_iff nd nd).mpr (List.Perm.refl m), beq_self_eq_true _⟩,
    boxEq_true_iff.mpr rfl⟩

/-- Witness for C7: two copies of the solvated complex both carrying
the not-a-number-containing box vectors are equal and hash equal. -/
theorem c7_nan_box_vectors_equal_witness :
    sysEq ⟨solvatedComplex.components, none, some nanBox⟩
        ⟨solvatedComplex.components, none, some nanBox⟩ = true ∧
    sysHash ⟨solvatedComplex.components, none, some nanBox⟩ =
      sysHash ⟨solvatedComplex.components, none, some nanBox⟩ ∧
    FpVal.ieeeEq .nan .nan = false ∧ FpVal.tolEq .nan .nan = true :=
  c7_nan_box_vectors_equal _ (by decide) none nanBox nanBox rfl (by decide)

/-- C8: the components accessor returns exactly the mapping given at
construction: its size is the number of supplied roles and each
supplied role looks up to the Component passed in. -/
theorem c8_components_accessor
    (m : List (String × Component)) (i : Option String) (b : Option (List FpVal))
    (nd : (m.map Prod.fst).Nodup) :
    (ChemicalSystem.mk m i b).components.length = m.length ∧
    ∀ kv ∈ m, dlookup kv.1 (ChemicalSystem.mk m i b).components = some kv.2 :=
  ⟨rfl, fun _ hkv => dlookup_of_mem nd hkv⟩

/-- Witness for C8 at the scenario of test_ligand_construction: a
two-role system reports size two and returns the solvent and ligand
components it was given. -/
theorem c8_components_accessor_witness :
    (ChemicalSystem.mk [("solvent", solvComp), ("ligand", tolueneComp)] none none).components.length =
      [("solvent", solvComp), ("ligand", tolueneComp)].length ∧
    ∀ kv ∈ [("solvent", solvComp), ("ligand", tolueneComp)],
      dlookup kv.1 (ChemicalSystem.mk [("solvent", solvComp), ("ligand", tolueneComp)] none none).components =
        some kv.2 :=
  c8_components_accessor _ none none (by decide)

/-- C9: the model of ChemicalSystem is immutable — the accessors return
exactly the construction data, unchanged by any observation — and
total_charge is a pure function of the components alone (independent of
identifier and box vectors), so repeated observations agree. -/
theorem c9_immutable_pure_accessors
    (m : List (String × Component)) (i₁ i₂ : Option String)
    (b₁ b₂ : Option (List FpVal)) :
    totalCharge ⟨m, i₁, b₁⟩ = totalCharge ⟨m, i₂, b₂⟩ ∧
    (ChemicalSystem.mk m i₁ b₁).components = m ∧
    (ChemicalSystem.mk m i₁ b₁).identifier = i₁ ∧
    (ChemicalSystem.mk m i₁ b₁).box_vectors = b₁ :=
  ⟨rfl, rfl, rfl, rfl⟩

/-- C10: equality and hashing are total on a system whose box vectors
contain not-a-number entries — comparing the not-a-number-carrying
complex of test_chemical_system_neq_3 with itself and with the plain
solvated complex completes and returns a value, as does its hash. -/
theorem c10_nan_operations_total :
    sysEq nanComplex nanComplex = true ∧
    sysEq solvatedComplex nanComplex = false ∧
    ∃ n : ℕ, sysHash nanComplex = n :=
  ⟨by decide, by decide, ⟨sysHash nanComplex, rfl⟩⟩
